import Mathlib

/-!
# sassc: result dispatch, stdin accumulation and make-rule emission

A shallow embedding of `sassc.c` (functions `output`, `compile_stdin`,
`output_make_rule`, `compile_file`) together with the properties of its
specification.

Conventions of the embedding.

* A C `char` is a `Char`; the code only ever compares characters with NUL,
  newline, space and `PATH_SEP`.
* A `char*` argument that the code treats as a C string is an
  `Option (List Char)`: `none` is the null pointer and `some s` holds the
  characters that precede the terminating NUL.  Raw character arrays
  (`buffer` and `source_string` in `compile_stdin`) are lists that contain
  their terminator explicitly.
* The process environment (standard streams, file system, outcome of
  fallible library calls) is an explicit `World` threaded through every
  function.  Lengths are natural numbers: strings are assumed short enough
  for `int` and `size_t` not to wrap.
* A file stream is buffered, as stdio streams are: `fprintf` only hands text
  to the operating system when the text no longer fits the buffer, `fclose`
  hands over what is left, and the operating-system write is the step that
  can fail.  The result of `fclose` is discarded by the program, so a
  failure there changes the file and nothing else.
* `PATH_SEP` comes from `libsass/sass_interface.h`, which is not part of the
  sources at hand; it is a parameter of `output_make_rule` and `compile_file`.
-/

namespace Sassc

/-! ## Environment -/

/-- The three kinds of destinations the program writes to. -/
inductive Sink where
  | stdout
  | stderr
  | file (path : List Char)
deriving DecidableEq, Repr

/-- Library and engine calls, recorded in the order in which they are made. -/
inductive Call where
  | fopen (path : List Char)
  | write (sink : Sink)
  | fclose (path : List Char)
  | sass_compile (source_string : List Char)
  | sass_compile_file (input_path : List Char)
deriving DecidableEq, Repr

/-- Process environment.

* `stdout`, `stderr`: everything written so far to the two streams;
* `fs`: content of every file, by path (`none`: the file does not exist);
* `stdin`: characters still to be delivered by standard input; when they are
  used up the stream reports a read error if `stdinFails`, a clean
  end-of-stream otherwise; `stdinError` is the error indicator read by `ferror`;
* `bufsiz`: capacity of the buffer of a file stream;
* `pending`: the text held in the buffer of the open file stream (the program
  has at most one file stream open at a time);
* `fopenFaults`: outcome of the coming `fopen` calls (`true`: the call fails);
* `writeFaults`: outcome of the coming operating-system writes to a file
  (`some k`: the write fails after `k` characters reached the file);
* `allocFaults`: outcome of the coming `malloc`/`realloc` calls (`true`: null);
  an exhausted list means success;
* `strerror`: the text of the operating-system error printed by `perror`;
* `calls`: the calls made so far. -/
structure World where
  stdout : List Char
  stderr : List Char
  fs : List Char → Option (List Char)
  stdin : List Char
  stdinFails : Bool
  stdinError : Bool
  bufsiz : Nat
  pending : List Char
  fopenFaults : List Bool
  writeFaults : List (Option Nat)
  allocFaults : List Bool
  strerror : List Char
  calls : List Call

/-- The NUL character that terminates a C string. -/
def NUL : Char := Char.ofNat 0

/-- The newline character. -/
def NL : Char := Char.ofNat 10

/-- Rendering of a `%s` argument; glibc prints `(null)` for a null pointer. -/
def fmt_s : Option (List Char) → List Char
  | some s => s
  | none => "(null)".toList

/-- Formatted write to the error stream: `fprintf(stderr, ...)` with the text already rendered. -/
def fprintf_stderr (text : List Char) (w : World) : World :=
  { w with stderr := w.stderr ++ text, calls := w.calls ++ [Call.write Sink.stderr] }

/-- Formatted write to standard output: `printf(...)` with the text already rendered. -/
def printf (text : List Char) (w : World) : World :=
  { w with stdout := w.stdout ++ text, calls := w.calls ++ [Call.write Sink.stdout] }

/-- The call `perror(msg)`: the message, a colon, the system error text and a newline on the error stream. -/
def perror (msg : List Char) (w : World) : World :=
  fprintf_stderr (msg ++ ": ".toList ++ w.strerror ++ [NL]) w

/-- The call `fopen(path, "w")`: on success the file is created or truncated and
the stream (identified by its path) is returned with an empty buffer; on failure the
result is null. -/
def fopen (path : List Char) (w : World) : Option (List Char) × World :=
  match w.fopenFaults with
  | true :: rest =>
    (none, { w with fopenFaults := rest, calls := w.calls ++ [Call.fopen path] })
  | _ =>
    (some path,
      { w with
        fopenFaults := w.fopenFaults.tail
        pending := []
        fs := fun p => if p = path then some [] else w.fs p
        calls := w.calls ++ [Call.fopen path] })

/-- Content of file `path` after `text` has been appended to it. -/
def fs_append (fs : List Char → Option (List Char)) (path text : List Char) :
    List Char → Option (List Char) :=
  fun p => if p = path then some ((fs p).getD [] ++ text) else fs p

/-- The operating-system write of `text` to file `path`: whether it succeeded.  A failing
write may have put the first characters of the text in the file. -/
def os_write (path text : List Char) (w : World) : Bool × World :=
  match w.writeFaults with
  | some k :: rest =>
    (false, { w with writeFaults := rest, fs := fs_append w.fs path (text.take k) })
  | _ =>
    (true, { w with writeFaults := w.writeFaults.tail, fs := fs_append w.fs path text })

/-- The call `fprintf(fp, ...)` on an open file, the text already rendered.  Text that fits
the buffer is only stored there and the call returns its length.  Otherwise what is pending
is handed to the operating system together with the text; the call returns the length of
the text, or a negative value when that write fails. -/
def fprintf (fp : List Char) (text : List Char) (w : World) : Int × World :=
  if (w.pending ++ text).length ≤ w.bufsiz then
    ((text.length : Int),
      { w with
        pending := w.pending ++ text
        calls := w.calls ++ [Call.write (Sink.file fp)] })
  else
    match os_write fp (w.pending ++ text) w with
    | (true, w1) =>
      ((text.length : Int),
        { w1 with pending := [], calls := w1.calls ++ [Call.write (Sink.file fp)] })
    | (false, w1) =>
      (-1, { w1 with pending := [], calls := w1.calls ++ [Call.write (Sink.file fp)] })

/-- The call `fclose(fp)`: what is pending is handed to the operating system.  The program
discards the result of `fclose`, so a failing write only shows in the file. -/
def fclose (fp : List Char) (w : World) : World :=
  if w.pending = [] then
    { w with calls := w.calls ++ [Call.fclose fp] }
  else
    match os_write fp w.pending w with
    | (_, w1) => { w1 with pending := [], calls := w1.calls ++ [Call.fclose fp] }

/-! ## `output` (sassc.c, lines 9-39) -/

/-- Result dispatcher: routes the outcome of a compilation to the error stream,
standard output or the output file and computes the exit code. -/
def output (error_status : Int) (error_message output_string outfile : Option (List Char))
    (w : World) : Int × World :=
  if error_status ≠ 0 then
    match error_message with
    | some m => (1, fprintf_stderr m w)
    | none => (1, fprintf_stderr "An error occured; no error message available.\n".toList w)
  else
    match output_string with
    | some s =>
      match outfile with
      | some f =>
        match fopen f w with
        | (none, w1) => (1, perror "Error opening output file".toList w1)
        | (some fp, w1) =>
          match fprintf fp s w1 with
          | (r, w2) =>
            if r < 0 then
              (1, fclose fp (perror "Error writing to output file".toList w2))
            else
              (0, fclose fp w2)
      | none => (0, printf s w)
    | none => (2, fprintf_stderr "Unknown internal error.\n".toList w)

/-! ## The compilation engine (libsass) -/

/-- Modelled from the spec: `struct sass_options` is declared in
`libsass/sass_interface.h`, which is not among the sources; these are the fields
`main` fills in (the spec's opaque CompileOptions). -/
structure sass_options where
  output_style : Int
  source_comments : Int
  include_paths : Option (List Char)
  image_path : Option (List Char)

/-- Modelled from the spec: `struct sass_context` is declared in
`libsass/sass_interface.h`; these are the fields `compile_stdin` reads and
writes (the spec's CompileRequest/CompileResult for an in-memory source). -/
structure sass_context where
  source_string : Option (List Char)
  output_string : Option (List Char)
  options : sass_options
  error_status : Int
  error_message : Option (List Char)

/-- Modelled from the spec: `struct sass_file_context` is declared in
`libsass/sass_interface.h`; these are the fields `compile_file` reads and
writes (the spec's CompileRequest/CompileResult for a file source). -/
structure sass_file_context where
  input_path : Option (List Char)
  output_string : Option (List Char)
  options : sass_options
  error_status : Int
  error_message : Option (List Char)
  import_dependencies : Option (List Char)

/-- Options with every field zero. -/
def sass_options.zero : sass_options :=
  { output_style := 0, source_comments := 0, include_paths := none, image_path := none }

/-- The call `sass_new_context()`: a fresh context with every field zero. -/
def sass_new_context : sass_context :=
  { source_string := none, output_string := none, options := sass_options.zero,
    error_status := 0, error_message := none }

/-- The call `sass_compile(ctx)`.  The engine is an external collaborator: any function
from the environment and the request to the filled-in context. -/
def sass_compile (engine : World → sass_context → sass_context) (ctx : sass_context)
    (w : World) : sass_context × World :=
  (engine w ctx, { w with calls := w.calls ++ [Call.sass_compile (ctx.source_string.getD [])] })

/-- The call `sass_compile_file(ctx)`, with the engine a parameter as for `sass_compile`. -/
def sass_compile_file (engine : World → sass_file_context → sass_file_context)
    (ctx : sass_file_context) (w : World) : sass_file_context × World :=
  (engine w ctx,
    { w with calls := w.calls ++ [Call.sass_compile_file (ctx.input_path.getD [])] })

/-! ## `compile_stdin` (sassc.c, lines 41-82) -/

/-- The constant `BUFSIZE`. -/
def BUFSIZE : Nat := 512

/-- The C string stored at the start of a character array: what precedes the first NUL. -/
def cstr (mem : List Char) : List Char :=
  mem.takeWhile fun c => c != NUL

/-- The call `strlen(s)`. -/
def strlen (mem : List Char) : Nat :=
  (cstr mem).length

/-- The array `dest` after `strcat(dest, src)`: the string in `dest`, the string in `src`
and a terminator. -/
def strcat (dest src : List Char) : List Char :=
  cstr dest ++ cstr src ++ [NUL]

/-- The characters one `fgets` call takes from the pending input when it may store up to
`n` of them: it stops after a newline, after `n` characters, or at the end of the input.
The result is the characters taken, the input left, and whether the end of the input
was hit. -/
def getline : Nat → List Char → List Char × List Char × Bool
  | 0, cs => ([], cs, false)
  | _ + 1, [] => ([], [], true)
  | n + 1, c :: cs =>
    if c = NL then ([c], cs, false)
    else
      let r := getline n cs
      (c :: r.1, r.2.1, r.2.2)

/-- The call `fgets(buffer, n, stdin)`: the new content of `buffer` (terminator included),
or null at end-of-stream with nothing read and on a read error. -/
def fgets (n : Nat) (w : World) : Option (List Char) × World :=
  match getline (n - 1) w.stdin with
  | (line, rest, hitEnd) =>
    if hitEnd && w.stdinFails then
      (none, { w with stdin := rest, stdinError := true })
    else if hitEnd && line.isEmpty then
      (none, { w with stdin := rest })
    else
      (some (line ++ [NUL]), { w with stdin := rest })

/-- The call `malloc(size)`: whether a block was obtained.  Its content is indeterminate,
so only what the program stores in it is represented. -/
def malloc (w : World) : Bool × World :=
  match w.allocFaults with
  | true :: rest => (false, { w with allocFaults := rest })
  | _ => (true, { w with allocFaults := w.allocFaults.tail })

/-- The call `realloc(mem, size)`: the block resized to `size` characters, keeping its
content up to the new size, or null. -/
def realloc (mem : List Char) (size : Nat) (w : World) : Option (List Char) × World :=
  match w.allocFaults with
  | true :: rest => (none, { w with allocFaults := rest })
  | _ => (some (mem.take size), { w with allocFaults := w.allocFaults.tail })

/-- How the accumulation of standard input ends: the process is terminated by `exit`, or
the loop is left with the accumulated `source_string`. -/
inductive Accumulated where
  | fatal (status : Int) (w : World)
  | done (source_string : List Char) (w : World)

/-- How a function that may call `exit` ends. -/
inductive Outcome where
  | returned (code : Int) (w : World)
  | exited (status : Int) (w : World)

/-- The loop `while(fgets(buffer, BUFSIZE, stdin))` of `compile_stdin`, with `size` and
`source_string` as loop state; `none` when the fuel runs out. -/
def stdin_loop : Nat → Nat → List Char → World → Option Accumulated
  | 0, _, _, _ => none
  | fuel + 1, size, source_string, w =>
    match fgets BUFSIZE w with
    | (none, w1) => some (Accumulated.done source_string w1)
    | (some buffer, w1) =>
      let size1 := size + strlen buffer
      match realloc source_string size1 w1 with
      | (none, w2) => some (Accumulated.fatal 2 (perror "Reallocation failed".toList w2))
      | (some source_string1, w2) => stdin_loop fuel size1 (strcat source_string1 buffer) w2

/-- Compilation of standard input: accumulates the stream, runs the engine on the
accumulated string and dispatches the result.  Releasing memory (`free`,
`sass_free_context`) has no effect on the environment and is left out. -/
def compile_stdin (engine : World → sass_context → sass_context) (options : sass_options)
    (outfile : Option (List Char)) (w : World) : Option Outcome :=
  match malloc w with
  | (false, w1) => some (Outcome.exited 1 (perror "Allocation failed".toList w1))
  | (true, w1) =>
    match stdin_loop (w1.stdin.length + 1) 1 [NUL] w1 with
    | none => none
    | some (Accumulated.fatal status w2) => some (Outcome.exited status w2)
    | some (Accumulated.done source_string w2) =>
      if w2.stdinError then
        some (Outcome.exited 2 (perror "Error reading standard input".toList w2))
      else
        let ctx0 := sass_new_context
        let ctx1 := { ctx0 with options := options, source_string := some (cstr source_string) }
        match sass_compile engine ctx1 w2 with
        | (ctx, w3) =>
          match output ctx.error_status ctx.error_message ctx.output_string outfile w3 with
          | (ret, w4) => some (Outcome.returned ret w4)

/-! ## `output_make_rule` (sassc.c, lines 84-145) -/

/-- The space character. -/
def SPACE : Char := ' '

/-- The loop that overwrites every `PATH_SEP` of the dependency list with a space. -/
def replace_sep (PATH_SEP : Char) : List Char → List Char
  | [] => []
  | c :: p => (if c = PATH_SEP then SPACE else c) :: replace_sep PATH_SEP p

/-- The call `strchr(p, ch)` for a character other than NUL: the offset of the first
occurrence of `ch` in the string, or null. -/
def strchr : List Char → Char → Option Nat
  | [], _ => none
  | c :: p, ch => if c = ch then some 0 else (strchr p ch).map fun i => i + 1

/-- The label `write_error`: report, close, return 1. -/
def write_error (fp : List Char) (w : World) : Int × World :=
  (1, fclose fp (perror "Error writing to dependency file".toList w))

/-- The loop `while(c = strchr(p, ' '))` and what follows it: one rule per prerequisite,
then the file is closed; `none` when the fuel runs out. -/
def phony_rules : Nat → List Char → List Char → World → Option (Int × World)
  | 0, _, _, _ => none
  | fuel + 1, fp, p, w =>
    match strchr p SPACE with
    | some c =>
      match fprintf fp (p.take c ++ " :\n".toList) w with
      | (r, w1) =>
        if r < 0 then some (write_error fp w1)
        else phony_rules fuel fp (p.drop (c + 1)) w1
    | none =>
      match fprintf fp (p ++ " :\n".toList) w with
      | (r, w1) =>
        if r < 0 then some (write_error fp w1)
        else some (0, fclose fp w1)

/-- Dependency-rule emitter: writes the make rule of `outfile` and one empty rule per
prerequisite to `depsfile`.  The separators are overwritten in place in the source; here
`deps` is the dependency list after that loop. -/
def output_make_rule (PATH_SEP : Char) (import_dependencies : List Char)
    (outfile : Option (List Char)) (depsfile : List Char) (w : World) : Option (Int × World) :=
  if import_dependencies = [] then some (0, w)
  else
    match fopen depsfile w with
    | (none, w1) => some (1, perror "Error opening dependency file".toList w1)
    | (some fp, w1) =>
      let deps := replace_sep PATH_SEP import_dependencies
      match fprintf fp (fmt_s outfile ++ " : ".toList ++ deps ++ [NL]) w1 with
      | (r, w2) =>
        if r < 0 then some (write_error fp w2)
        else phony_rules (deps.length + 1) fp deps w2

/-! ## `compile_file` (sassc.c, lines 147-163) -/

/-- The sinks on which a list of calls performs a write, in order of first use. -/
def sinksWritten (cs : List Call) : List Sink :=
  (cs.filterMap fun c => match c with
    | Call.write s => some s
    | _ => none).dedup

/-- The coming `fopen` call fails. -/
def openFails (w : World) : Bool :=
  w.fopenFaults.head? == some true

/-- The coming operating-system write to a file fails. -/
def writeFails (w : World) : Bool :=
  match w.writeFaults.head? with
  | some (some _) => true
  | _ => false

/-- A world with empty streams, an empty file system, a buffer of 4096 characters for
file streams and no faults. -/
def World.quiet : World :=
  { stdout := [], stderr := [], fs := fun _ => none, stdin := [], stdinFails := false,
    stdinError := false, bufsiz := 4096, pending := [], fopenFaults := [], writeFaults := [],
    allocFaults := [],
    strerror := "No space left on device".toList, calls := [] }

/-- The calls one invocation of `output` adds to the record. -/
def outputCalls (error_status : Int) (error_message output_string outfile : Option (List Char))
    (w : World) : List Call :=
  (output error_status error_message output_string outfile w).2.calls.drop w.calls.length

/-- The call `fprintf(fp, "%s", text)` on a freshly opened stream reports a failure: the
text does not fit the buffer and the operating-system write fails. -/
def fprintfFails (text : List Char) (w : World) : Bool :=
  decide (w.bufsiz < text.length) && writeFails w

/-- The sinks one invocation of `output` writes to, path by path of the function. -/
def outputSinks (error_status : Int) (output_string outfile : Option (List Char))
    (w : World) : List Sink :=
  if error_status ≠ 0 then [Sink.stderr]
  else
    match output_string, outfile with
    | none, _ => [Sink.stderr]
    | some _, none => [Sink.stdout]
    | some s, some f =>
      if openFails w then [Sink.stderr]
      else if fprintfFails s w then [Sink.file f, Sink.stderr]
      else [Sink.file f]

/-- A quiet world in which the coming operating-system write to a file fails after one
character. -/
def World.diskFull : World :=
  { World.quiet with writeFaults := [some 1] }

/-- The first `n` of the coming operating-system writes to a file all succeed. -/
def writesSucceed (n : Nat) (w : World) : Bool :=
  (w.writeFaults.take n).all Option.isNone

/-- The dependency list with every path-list separator replaced by one space, in the
words of the specification. -/
def spec_prerequisites (PATH_SEP : Char) (dependencyList : List Char) : List Char :=
  dependencyList.map fun c => if c = PATH_SEP then SPACE else c

/-- The rules file in the words of the specification: the line `TARGET : PREREQS` followed
by one line `TOKEN :` for each token of the prerequisites split on the space character. -/
def spec_rules (PATH_SEP : Char) (dependencyList target : List Char) : List Char :=
  target ++ " : ".toList ++ spec_prerequisites PATH_SEP dependencyList ++ "\n".toList ++
    ((spec_prerequisites PATH_SEP dependencyList).splitOn SPACE).flatMap
      fun t => t ++ " :\n".toList

/-- What an invocation of `output_make_rule` shows: its return value and the content of
the rules file, standard output and the error stream afterwards. -/
def observe_rules (depsfile : List Char) (r : Option (Int × World)) :
    Option (Int × Option (List Char) × List Char × List Char) :=
  r.map fun x => (x.1, x.2.fs depsfile, x.2.stdout, x.2.stderr)

/-- Every coming `malloc`/`realloc` call succeeds. -/
def allocsSucceed (w : World) : Bool :=
  w.allocFaults.all fun b => !b

/-- The source strings handed to the engine by the `sass_compile` calls of a record. -/
def engineInputs (cs : List Call) : List (List Char) :=
  cs.filterMap fun c => match c with
    | Call.sass_compile src => some src
    | _ => none

/-- An engine that returns its source unchanged as the compiled text. -/
def echo_engine : World → sass_context → sass_context :=
  fun _ ctx => { ctx with output_string := ctx.source_string }

/-- A quiet world whose standard input delivers `a`, a zero byte, `b` and a newline. -/
def World.binaryInput : World :=
  { World.quiet with stdin := ['a', NUL, 'b', NL] }

/-- A quiet world whose standard input delivers two lines and an unterminated third one. -/
def World.textInput : World :=
  { World.quiet with stdin := "a \x7b\n  b: c;\n\x7d".toList }

/-- The environment in which a function ended. -/
def Outcome.world : Outcome → World
  | Outcome.returned _ w => w
  | Outcome.exited _ w => w

/-- The source strings handed to the engine during an invocation that ended. -/
def handedToEngine (o : Option Outcome) : Option (List (List Char)) :=
  o.map fun x => engineInputs x.world.calls

/-- A text longer than the buffer of a file stream in `World.quiet`: 5000 times `a`. -/
def longText : List Char :=
  List.replicate 5000 'a'

/-- The text a file stream has received so far: what is in the file followed by what is
still in the buffer. -/
def content (fp : List Char) (w : World) : List Char :=
  (w.fs fp).getD [] ++ w.pending

/-- The operating-system writes that `n` further `fprintf` calls and the closing of the
stream can lead to all succeed. -/
def flushesSucceed (n : Nat) (w : World) : Bool :=
  writesSucceed (n + if w.pending = [] then 0 else 1) w

theorem length_not_neg (l : List Char) : ¬ ((l.length : Int) < 0) := by
  omega

theorem fopen_ok {path : List Char} {w : World} (h : openFails w = false) :
    fopen path w =
      (some path,
        { w with
          fopenFaults := w.fopenFaults.tail
          pending := []
          fs := fun p => if p = path then some [] else w.fs p
          calls := w.calls ++ [Call.fopen path] }) := by
  unfold openFails at h
  unfold fopen
  cases hf : w.fopenFaults with
  | nil => simp
  | cons b rest =>
    cases b
    · simp
    · simp [hf] at h

/-- C1. With `error_status` false, an output text present and no output file, `output`
appends exactly the output text to standard output, leaves the error stream and the
file system as they were (its only call is the write to standard output) and returns 0. -/
theorem output_writes_text_to_stdout (error_message : Option (List Char))
    (output_string : List Char) (w : World) :
    (output 0 error_message (some output_string) none w).1 = 0 ∧
    (output 0 error_message (some output_string) none w).2.stdout = w.stdout ++ output_string ∧
    (output 0 error_message (some output_string) none w).2.stderr = w.stderr ∧
    (output 0 error_message (some output_string) none w).2.fs = w.fs ∧
    (output 0 error_message (some output_string) none w).2.calls =
      w.calls ++ [Call.write Sink.stdout] := by
  simp [output, printf]

/-- C2 (defect of the code). A short output text is only buffered by `fprintf`; when the
operating-system write then fails inside `fclose`, whose result is discarded, `output`
returns 0 although writing the output file failed: the file holds one character of `ab`
and nothing is reported on the error stream. -/
theorem output_unreported_write_failure :
    writeFails World.diskFull = true ∧
    (output 0 none (some "ab".toList) (some "out.css".toList) World.diskFull).1 = 0 ∧
    (output 0 none (some "ab".toList) (some "out.css".toList) World.diskFull).2.fs
        "out.css".toList = some "a".toList ∧
    (output 0 none (some "ab".toList) (some "out.css".toList) World.diskFull).2.stderr = [] := by
  refine ⟨?_, ?_, ?_, ?_⟩ <;> decide

/-- C3. With `error_status` true and an error message present, whatever the output text
and the output file, `output` appends exactly the message to the error stream and returns
1; standard output and the file system are as before and no file is opened: the write to
the error stream is its only call. -/
theorem output_reports_error_message (error_status : Int) (h : error_status ≠ 0)
    (error_message : List Char) (output_string outfile : Option (List Char)) (w : World) :
    (output error_status (some error_message) output_string outfile w).1 = 1 ∧
    (output error_status (some error_message) output_string outfile w).2.stderr =
      w.stderr ++ error_message ∧
    (output error_status (some error_message) output_string outfile w).2.stdout = w.stdout ∧
    (output error_status (some error_message) output_string outfile w).2.fs = w.fs ∧
    (output error_status (some error_message) output_string outfile w).2.calls =
      w.calls ++ [Call.write Sink.stderr] := by
  simp [output, h, fprintf_stderr]

/-- Witness for C3: a compilation error with message `line 3: unexpected token`, an output
text and an output file supplied. -/
theorem output_reports_error_message_witness :
    (1 : Int) ≠ 0 ∧
    (output 1 (some "line 3: unexpected token".toList) (some "a".toList)
        (some "out.css".toList) World.quiet).1 = 1 ∧
    (output 1 (some "line 3: unexpected token".toList) (some "a".toList)
        (some "out.css".toList) World.quiet).2.stderr =
      World.quiet.stderr ++ "line 3: unexpected token".toList ∧
    (output 1 (some "line 3: unexpected token".toList) (some "a".toList)
        (some "out.css".toList) World.quiet).2.stdout = World.quiet.stdout ∧
    (output 1 (some "line 3: unexpected token".toList) (some "a".toList)
        (some "out.css".toList) World.quiet).2.fs = World.quiet.fs ∧
    (output 1 (some "line 3: unexpected token".toList) (some "a".toList)
        (some "out.css".toList) World.quiet).2.calls =
      World.quiet.calls ++ [Call.write Sink.stderr] :=
  ⟨by decide, output_reports_error_message 1 (by decide) _ _ _ _⟩

theorem output_fprintf_failure (error_message : Option (List Char)) (s f : List Char)
    (w : World) (k : Nat) (rest : List (Option Nat)) (hopen : openFails w = false)
    (hlong : w.bufsiz < s.length) (hfault : w.writeFaults = some k :: rest) :
    output 0 error_message (some s) (some f) w =
      (1,
        { w with
          fopenFaults := w.fopenFaults.tail
          pending := []
          writeFaults := rest
          fs := fs_append (fun p => if p = f then some [] else w.fs p) f (s.take k)
          stderr := w.stderr ++
            ("Error writing to output file".toList ++ ": ".toList ++ w.strerror ++ [NL])
          calls := w.calls ++ [Call.fopen f, Call.write (Sink.file f), Call.write Sink.stderr,
            Call.fclose f] }) := by
  have hb2 : ¬ s.length ≤ w.bufsiz := Nat.not_le.mpr hlong
  simp [output, fopen_ok hopen, fprintf, os_write, fclose, perror, fprintf_stderr, hfault, hb2]

/-- C9, as stated, fails: when the output text does not fit the stream buffer and the
operating-system write fails after one character, `fprintf` reports the failure and `output`
has written to two sinks, the output file (which holds that character) and the error stream
(which holds the report of `perror`). -/
theorem output_write_failure_uses_two_sinks :
    ¬ (sinksWritten (outputCalls 0 none (some longText) (some "out.css".toList)
        World.diskFull)).length = 1 ∧
    sinksWritten (outputCalls 0 none (some longText) (some "out.css".toList)
        World.diskFull) = [Sink.file "out.css".toList, Sink.stderr] ∧
    (output 0 none (some longText) (some "out.css".toList) World.diskFull).2.fs
        "out.css".toList = some "a".toList ∧
    (output 0 none (some longText) (some "out.css".toList) World.diskFull).2.stderr =
      "Error writing to output file: No space left on device\n".toList := by
  have hlong : World.diskFull.bufsiz < longText.length := by
    show 4096 < (List.replicate 5000 'a').length
    rw [List.length_replicate]
    omega
  have h := output_fprintf_failure none longText "out.css".toList World.diskFull 1 []
    (by decide) hlong rfl
  have htake : longText.take 1 = ['a'] := rfl
  simp only [outputCalls, h, htake]
  refine ⟨?_, ?_, ?_, ?_⟩ <;> decide

/-- C9, amended. The sinks one invocation of `output` writes to are: the error stream alone
when `error_status` is true, when there is no output text, and when opening the output file
fails; standard output alone when there is a text and no output file; the output file alone
when it is opened and `fprintf` reports no failure; the output file and the error stream
when `fprintf` on the opened file reports a failure.  So it is exactly one sink except on
that last path, and never both standard output and a file. -/
theorem output_sinks (error_status : Int)
    (error_message output_string outfile : Option (List Char)) (w : World) :
    sinksWritten (outputCalls error_status error_message output_string outfile w) =
      outputSinks error_status output_string outfile w ∧
    ¬ (Sink.stdout ∈ sinksWritten (outputCalls error_status error_message output_string outfile w) ∧
        ∃ path, Sink.file path ∈
          sinksWritten (outputCalls error_status error_message output_string outfile w)) ∧
    (if error_status = 0 ∧ output_string.isSome = true ∧ outfile.isSome = true ∧
          openFails w = false ∧ fprintfFails (output_string.getD []) w = true then
        sinksWritten (outputCalls error_status error_message output_string outfile w) =
          [Sink.file (outfile.getD []), Sink.stderr]
      else
        (sinksWritten (outputCalls error_status error_message output_string outfile w)).length
          = 1) := by
  by_cases he : error_status = 0
  · subst he
    cases output_string with
    | none => simp [output, outputCalls, outputSinks, sinksWritten, fprintf_stderr]
    | some s =>
      cases outfile with
      | none => simp [output, outputCalls, outputSinks, sinksWritten, printf]
      | some f =>
        rcases Nat.lt_or_ge w.bufsiz s.length with hb | hb
        · have hb2 : ¬ s.length ≤ w.bufsiz := Nat.not_le.mpr hb
          rcases hf : w.fopenFaults with _ | ⟨_ | _, rest⟩ <;>
            by_cases hs : s = [] <;>
              rcases hw : w.writeFaults with _ | ⟨_ | k, rest2⟩ <;>
                simp [output, outputCalls, outputSinks, sinksWritten, fopen, fprintf, os_write,
                  fclose, perror, fprintf_stderr, openFails, writeFails, fprintfFails, hf, hw,
                  hb, hb2, hs, length_not_neg]
        · have hb2 : ¬ w.bufsiz < s.length := Nat.not_lt.mpr hb
          rcases hf : w.fopenFaults with _ | ⟨_ | _, rest⟩ <;>
            by_cases hs : s = [] <;>
              rcases hw : w.writeFaults with _ | ⟨_ | k, rest2⟩ <;>
                simp [output, outputCalls, outputSinks, sinksWritten, fopen, fprintf, os_write,
                  fclose, perror, fprintf_stderr, openFails, writeFails, fprintfFails, hf, hw,
                  hb, hb2, hs, length_not_neg]
  · cases error_message <;>
      simp [output, outputCalls, outputSinks, sinksWritten, fprintf_stderr, he]

/-! ## Properties of `output_make_rule` -/

theorem replace_sep_eq (sep : Char) (d : List Char) :
    replace_sep sep d = spec_prerequisites sep d := by
  induction d with
  | nil => rfl
  | cons c d ih => simp [replace_sep, spec_prerequisites, ih] at *

theorem strchr_none {p : List Char} {ch : Char} (h : strchr p ch = none) : ch ∉ p := by
  induction p with
  | nil => simp
  | cons c p ih =>
    unfold strchr at h
    by_cases hc : c = ch
    · simp [hc] at h
    · simp only [hc, if_false, Option.map_eq_none'] at h
      simp [ih h, Ne.symm hc]

theorem strchr_some {p : List Char} {ch : Char} {i : Nat} (h : strchr p ch = some i) :
    p = p.take i ++ ch :: p.drop (i + 1) ∧ ch ∉ p.take i := by
  induction p generalizing i with
  | nil => simp [strchr] at h
  | cons c p ih =>
    unfold strchr at h
    by_cases hc : c = ch
    · simp only [hc, if_true, Option.some.injEq] at h
      subst h
      simp [hc]
    · simp only [hc, if_false, Option.map_eq_some'] at h
      obtain ⟨j, hj, rfl⟩ := h
      obtain ⟨h1, h2⟩ := ih hj
      refine ⟨?_, ?_⟩
      · simp only [List.take_succ_cons, List.drop_succ_cons, List.cons_append]
        rw [← h1]
      · simp [List.take_succ_cons, h2, Ne.symm hc]

theorem splitOn_no_sep {p : List Char} {ch : Char} (h : ch ∉ p) : p.splitOn ch = [p] := by
  apply List.splitOnP_eq_single
  intro x hx hxc
  rw [beq_iff_eq] at hxc
  exact h (hxc ▸ hx)

theorem splitOn_first {a b : List Char} {ch : Char} (h : ch ∉ a) :
    (a ++ ch :: b).splitOn ch = a :: b.splitOn ch := by
  apply List.splitOnP_first
  · intro x hx hxc
    rw [beq_iff_eq] at hxc
    exact h (hxc ▸ hx)
  · simp

theorem fs_append_append (fs : List Char → Option (List Char)) (fp a b : List Char) :
    fs_append (fs_append fs fp a) fp b = fs_append fs fp (a ++ b) := by
  funext p
  by_cases hp : p = fp <;> simp [fs_append, hp]

theorem writesSucceed_mono {m n : Nat} {w : World} (h : m ≤ n)
    (hn : writesSucceed n w = true) : writesSucceed m w = true := by
  unfold writesSucceed at *
  generalize w.writeFaults = l at *
  induction l generalizing m n with
  | nil => simp
  | cons x l ih =>
    cases m with
    | zero => simp
    | succ m =>
      cases n with
      | zero => omega
      | succ n =>
        simp only [List.take_succ_cons, List.all_cons, Bool.and_eq_true] at hn ⊢
        exact ⟨hn.1, ih (Nat.le_of_succ_le_succ h) hn.2⟩

theorem writesSucceed_tail {n : Nat} {w : World} (hn : writesSucceed (n + 1) w = true) :
    (∀ k rest, w.writeFaults ≠ some k :: rest) ∧
    (w.writeFaults.tail.take n).all Option.isNone = true := by
  unfold writesSucceed at hn
  rcases hw : w.writeFaults with _ | ⟨_ | k, rest⟩
  · simp
  · rw [hw] at hn
    simp only [List.take_succ_cons, List.all_cons, Bool.and_eq_true] at hn
    simp [hn.2]
  · rw [hw] at hn
    simp at hn

theorem os_write_succeeds {w : World} (fp text : List Char)
    (h : ∀ k rest, w.writeFaults ≠ some k :: rest) :
    os_write fp text w =
      (true, { w with writeFaults := w.writeFaults.tail, fs := fs_append w.fs fp text }) := by
  unfold os_write
  rcases hw : w.writeFaults with _ | ⟨_ | k, rest⟩
  · rfl
  · rfl
  · exact absurd hw (h k rest)

theorem fprintf_succeeds {n : Nat} {w : World} (fp text : List Char)
    (h : flushesSucceed (n + 1) w = true) (hex : (w.fs fp).isSome = true) :
    ∃ w1, fprintf fp text w = ((text.length : Int), w1) ∧ flushesSucceed n w1 = true ∧
      (w1.fs fp).isSome = true ∧ content fp w1 = content fp w ++ text ∧
      w1.stdout = w.stdout ∧ w1.stderr = w.stderr := by
  unfold flushesSucceed at h
  unfold fprintf
  by_cases hfit : (w.pending ++ text).length ≤ w.bufsiz
  · refine ⟨{ w with
        pending := w.pending ++ text
        calls := w.calls ++ [Call.write (Sink.file fp)] }, by simp only [hfit, if_true], ?_, hex,
      ?_, rfl, rfl⟩
    · unfold flushesSucceed
      apply writesSucceed_mono (w := w) (n := n + 1 + if w.pending = [] then 0 else 1) _ h
      split <;> omega
    · simp [content]
  · have h1 : writesSucceed ((n + if w.pending = [] then 0 else 1) + 1) w = true := by
      rw [show (n + if w.pending = [] then 0 else 1) + 1 =
        n + 1 + if w.pending = [] then 0 else 1 by omega]
      exact h
    obtain ⟨hno, htail⟩ := writesSucceed_tail h1
    refine ⟨{ w with
        writeFaults := w.writeFaults.tail
        fs := fs_append w.fs fp (w.pending ++ text)
        pending := []
        calls := w.calls ++ [Call.write (Sink.file fp)] },
      by simp only [hfit, if_false, os_write_succeeds fp _ hno], ?_, ?_, ?_, rfl, rfl⟩
    · unfold flushesSucceed
      apply writesSucceed_mono (m := n + 0) (n := n + if w.pending = [] then 0 else 1)
        (w := { w with
          writeFaults := w.writeFaults.tail
          fs := fs_append w.fs fp (w.pending ++ text)
          pending := []
          calls := w.calls ++ [Call.write (Sink.file fp)] })
      · split <;> omega
      · exact htail
    · simp [fs_append]
    · simp [content, fs_append]

theorem fclose_succeeds {w : World} (fp : List Char) (h : flushesSucceed 0 w = true)
    (hex : (w.fs fp).isSome = true) :
    (fclose fp w).fs fp = some (content fp w) ∧ (fclose fp w).stdout = w.stdout ∧
      (fclose fp w).stderr = w.stderr := by
  unfold flushesSucceed at h
  unfold fclose
  by_cases hp : w.pending = []
  · obtain ⟨d, hd⟩ := Option.isSome_iff_exists.mp hex
    simp [hp, content, hd]
  · simp only [hp, if_false, Nat.zero_add] at h ⊢
    obtain ⟨hno, _⟩ := writesSucceed_tail (n := 0) h
    rw [os_write_succeeds fp _ hno]
    simp [content, fs_append]

theorem phony_rules_ok (fp : List Char) :
    ∀ (fuel : Nat) (p : List Char) (w : World), p.length < fuel →
      flushesSucceed (p.count SPACE + 1) w = true → (w.fs fp).isSome = true →
      ∃ w1, phony_rules fuel fp p w = some (0, w1) ∧
        w1.fs fp =
          some (content fp w ++ (p.splitOn SPACE).flatMap fun t => t ++ " :\n".toList) ∧
        w1.stdout = w.stdout ∧ w1.stderr = w.stderr := by
  intro fuel
  induction fuel with
  | zero => intro p w h; omega
  | succ fuel ih =>
    intro p w hlen hw hex
    unfold phony_rules
    cases hs : strchr p SPACE with
    | none =>
      have hno := strchr_none hs
      rw [List.count_eq_zero_of_not_mem hno] at hw
      obtain ⟨w1, h1, h2, h3, h4, h5, h6⟩ := fprintf_succeeds fp (p ++ " :\n".toList) hw hex
      simp only [h1, length_not_neg, if_false]
      obtain ⟨c1, c2, c3⟩ := fclose_succeeds fp h2 h3
      refine ⟨fclose fp w1, rfl, ?_, by rw [c2, h5], by rw [c3, h6]⟩
      rw [c1, h4, splitOn_no_sep hno]
      simp
    | some c =>
      obtain ⟨hp, hno⟩ := strchr_some hs
      have hcount : p.count SPACE = (p.drop (c + 1)).count SPACE + 1 := by
        conv_lhs => rw [hp]
        rw [List.count_append, List.count_cons_self, List.count_eq_zero_of_not_mem hno]
        omega
      rw [hcount] at hw
      obtain ⟨w1, h1, h2, h3, h4, h5, h6⟩ :=
        fprintf_succeeds fp (p.take c ++ " :\n".toList) hw hex
      simp only [h1, length_not_neg, if_false]
      have hlen2 : (p.drop (c + 1)).length < fuel := by
        have : (p.drop (c + 1)).length ≤ p.length - 1 := by
          rw [List.length_drop]; omega
        have : 0 < p.length := by
          rw [hp]; simp
        omega
      obtain ⟨w2, e1, e2, e3, e4⟩ := ih (p.drop (c + 1)) w1 hlen2 h2 h3
      refine ⟨w2, e1, ?_, by rw [e3, h5], by rw [e4, h6]⟩
      rw [e2, h4]
      conv_rhs => rw [hp, splitOn_first hno]
      simp

theorem output_make_rule_ok (sep : Char) (deps : List Char) (outfile : Option (List Char))
    (depsfile : List Char) (w : World) (hne : deps ≠ []) (hopen : openFails w = false)
    (hw : writesSucceed ((spec_prerequisites sep deps).count SPACE + 2) w = true) :
    observe_rules depsfile (output_make_rule sep deps outfile depsfile w) =
      some (0,
        some (fmt_s outfile ++ " : ".toList ++ spec_prerequisites sep deps ++ "\n".toList ++
          ((spec_prerequisites sep deps).splitOn SPACE).flatMap fun t => t ++ " :\n".toList),
        w.stdout, w.stderr) := by
  unfold output_make_rule
  simp only [hne, if_false, fopen_ok hopen, replace_sep_eq]
  have hw2 : flushesSucceed ((spec_prerequisites sep deps).count SPACE + 1 + 1)
      { w with
        fopenFaults := w.fopenFaults.tail
        pending := []
        fs := fun p => if p = depsfile then some [] else w.fs p
        calls := w.calls ++ [Call.fopen depsfile] } = true := by
    unfold flushesSucceed
    simpa using hw
  obtain ⟨w1, h1, h2, h3, h4, h5, h6⟩ := fprintf_succeeds depsfile
    (fmt_s outfile ++ " : ".toList ++ spec_prerequisites sep deps ++ [NL]) hw2 (by simp)
  simp only [h1, length_not_neg, if_false]
  obtain ⟨w2, e1, e2, e3, e4⟩ := phony_rules_ok depsfile _ _ w1 (Nat.lt_succ_self _) h2 h3
  simp only [e1, observe_rules, Option.map_some', e2, e3, e4, h4, h5, h6]
  simp [content, NL]

/-- C4. For a non-empty dependency list and a target path, when opening the rules file
and the writes to it succeed, `output_make_rule` returns 0 and the rules file holds the
line `TARGET : PREREQS` followed by one line `TOKEN :` per token of the prerequisites split
on the space character, the prerequisites being the list with each separator replaced by a
space; standard output and the error stream are untouched. -/
theorem output_make_rule_content (PATH_SEP : Char) (dependencyList target depsfile : List Char)
    (w : World) (hne : dependencyList ≠ []) (hopen : openFails w = false)
    (hwrite :
      writesSucceed ((spec_prerequisites PATH_SEP dependencyList).count SPACE + 2) w = true) :
    observe_rules depsfile (output_make_rule PATH_SEP dependencyList (some target) depsfile w) =
      some (0, some (spec_rules PATH_SEP dependencyList target), w.stdout, w.stderr) :=
  output_make_rule_ok PATH_SEP dependencyList (some target) depsfile w hne hopen hwrite

/-- Witness for C4: the list `a.scss:b.scss:c.scss` with target `out.css` and separator `:`
gives exactly the four lines of the specification. -/
theorem output_make_rule_content_witness :
    "a.scss:b.scss:c.scss".toList ≠ [] ∧ openFails World.quiet = false ∧
    writesSucceed ((spec_prerequisites ':' "a.scss:b.scss:c.scss".toList).count SPACE + 2)
      World.quiet = true ∧
    observe_rules "out.d".toList
        (output_make_rule ':' "a.scss:b.scss:c.scss".toList (some "out.css".toList)
          "out.d".toList World.quiet) =
      some (0, some "out.css : a.scss b.scss c.scss\na.scss :\nb.scss :\nc.scss :\n".toList,
        [], []) :=
  ⟨by decide, by decide, by decide,
    (output_make_rule_content ':' "a.scss:b.scss:c.scss".toList "out.css".toList "out.d".toList
      World.quiet (by decide) (by decide) (by decide)).trans (by decide)⟩

/-- C7. With an empty dependency list `output_make_rule` returns 0 and leaves the whole
environment as it was: no file is opened, created, truncated or written, for every target
and every rules-file path. -/
theorem output_make_rule_empty (PATH_SEP : Char) (outfile : Option (List Char))
    (depsfile : List Char) (w : World) :
    output_make_rule PATH_SEP [] outfile depsfile w = some (0, w) := by
  simp [output_make_rule]

/-- C10, as stated, fails: a dependency list without separator whose single entry contains
a space gets one rule per space-separated piece, three lines instead of two (for both values
of the separator, `:` and `;`). -/
theorem output_make_rule_entry_with_space :
    observe_rules "out.d".toList
        (output_make_rule ':' "a b".toList (some "out.css".toList) "out.d".toList World.quiet) =
      some (0, some "out.css : a b\na :\nb :\n".toList, [], []) ∧
    observe_rules "out.d".toList
        (output_make_rule ';' "a b".toList (some "out.css".toList) "out.d".toList World.quiet) =
      some (0, some "out.css : a b\na :\nb :\n".toList, [], []) ∧
    "out.css : a b\na :\nb :\n".toList ≠ "out.css : a b\na b :\n".toList := by
  refine ⟨?_, ?_, ?_⟩ <;> decide

/-- C10, amended. For a non-empty dependency list that contains neither the separator nor
a space, when opening the rules file and the two writes succeed, the rules file holds exactly
two lines: `TARGET : ENTRY` and `ENTRY :`. -/
theorem output_make_rule_single_entry (PATH_SEP : Char) (entry target depsfile : List Char)
    (w : World) (hne : entry ≠ []) (hsep : PATH_SEP ∉ entry) (hspace : SPACE ∉ entry)
    (hopen : openFails w = false) (hwrite : writesSucceed 2 w = true) :
    observe_rules depsfile (output_make_rule PATH_SEP entry (some target) depsfile w) =
      some (0, some (target ++ " : ".toList ++ entry ++ "\n".toList ++ entry ++ " :\n".toList),
        w.stdout, w.stderr) := by
  have hpre : spec_prerequisites PATH_SEP entry = entry := by
    unfold spec_prerequisites
    conv_rhs => rw [← List.map_id entry]
    apply List.map_congr_left
    intro c hc
    have : c ≠ PATH_SEP := fun h => hsep (h ▸ hc)
    simp [this]
  have hcount : (spec_prerequisites PATH_SEP entry).count SPACE = 0 := by
    rw [hpre]; exact List.count_eq_zero_of_not_mem hspace
  have h := output_make_rule_ok PATH_SEP entry (some target) depsfile w hne hopen
    (by rw [hcount]; exact hwrite)
  rw [h, hpre, splitOn_no_sep hspace]
  simp [fmt_s]

/-- Witness for C10 amended: the single entry `a.scss` with target `out.css`. -/
theorem output_make_rule_single_entry_witness :
    "a.scss".toList ≠ [] ∧ ':' ∉ "a.scss".toList ∧ SPACE ∉ "a.scss".toList ∧
    openFails World.quiet = false ∧ writesSucceed 2 World.quiet = true ∧
    observe_rules "out.d".toList
        (output_make_rule ':' "a.scss".toList (some "out.css".toList) "out.d".toList
          World.quiet) =
      some (0, some "out.css : a.scss\na.scss :\n".toList, [], []) :=
  ⟨by decide, by decide, by decide, by decide, by decide,
    (output_make_rule_single_entry ':' "a.scss".toList "out.css".toList "out.d".toList
      World.quiet (by decide) (by decide) (by decide) (by decide) (by decide)).trans
      (by decide)⟩

/-! ## Properties of `compile_stdin` -/

theorem getline_append (n : Nat) (cs : List Char) :
    (getline n cs).1 ++ (getline n cs).2.1 = cs := by
  induction n generalizing cs with
  | zero => simp [getline]
  | succ n ih =>
    cases cs with
    | nil => simp [getline]
    | cons c cs =>
      unfold getline
      by_cases hc : c = NL
      · simp [hc]
      · simp [hc, ih cs]

theorem getline_ne_nil (n : Nat) (c : Char) (cs : List Char) :
    (getline (n + 1) (c :: cs)).1 ≠ [] := by
  unfold getline
  by_cases hc : c = NL <;> simp [hc]

theorem fgets_eof {w : World} (hclean : w.stdinFails = false) (hin : w.stdin = []) :
    fgets BUFSIZE w = (none, w) := by
  cases w
  simp_all [fgets, BUFSIZE, getline]

theorem fgets_line {w : World} (hclean : w.stdinFails = false) (hin : w.stdin ≠ []) :
    ∃ l r, l ≠ [] ∧ l ++ r = w.stdin ∧
      fgets BUFSIZE w = (some (l ++ [NUL]), { w with stdin := r }) := by
  obtain ⟨c, cs, hcs⟩ := List.exists_cons_of_ne_nil hin
  refine ⟨(getline 511 w.stdin).1, (getline 511 w.stdin).2.1, ?_, getline_append _ _, ?_⟩
  · rw [hcs]; exact getline_ne_nil 510 c cs
  · have hne : (getline 511 w.stdin).1 ≠ [] := by
      rw [hcs]; exact getline_ne_nil 510 c cs
    simp [fgets, BUFSIZE, hclean, hne]

theorem cstr_terminated {l : List Char} (h : NUL ∉ l) (rest : List Char) :
    cstr (l ++ NUL :: rest) = l := by
  unfold cstr
  induction l with
  | nil => simp
  | cons c l ih =>
    have hc : c ≠ NUL := fun e => h (by simp [e])
    have hl : NUL ∉ l := fun e => h (by simp [e])
    simp [List.takeWhile_cons, hc, ih hl]

theorem realloc_succeeds {w : World} (mem : List Char) (size : Nat)
    (h : allocsSucceed w = true) :
    realloc mem size w = (some (mem.take size), { w with allocFaults := w.allocFaults.tail }) ∧
    allocsSucceed { w with allocFaults := w.allocFaults.tail } = true := by
  unfold allocsSucceed at *
  unfold realloc
  rcases hw : w.allocFaults with _ | ⟨_ | _, rest⟩
  · simp
  · rw [hw] at h
    simp only [List.all_cons, Bool.and_eq_true] at h
    simp [h.2]
  · rw [hw] at h
    simp at h

theorem stdin_loop_clean :
    ∀ (fuel : Nat) (acc : List Char) (w : World), w.stdin.length < fuel → NUL ∉ acc →
      NUL ∉ w.stdin → w.stdinFails = false → allocsSucceed w = true →
      ∃ k, stdin_loop fuel (acc.length + 1) (acc ++ [NUL]) w =
        some (Accumulated.done (acc ++ w.stdin ++ [NUL])
          { w with stdin := [], allocFaults := w.allocFaults.drop k }) := by
  intro fuel
  induction fuel with
  | zero => intro acc w h; omega
  | succ fuel ih =>
    intro acc w hlen hacc hin hclean halloc
    unfold stdin_loop
    by_cases hempty : w.stdin = []
    · rw [fgets_eof hclean hempty]
      refine ⟨0, ?_⟩
      cases w
      simp_all
    · obtain ⟨l, r, hl, hlr, hf⟩ := fgets_line hclean hempty
      have hnl : NUL ∉ l := fun e => hin (by rw [← hlr]; simp [e])
      have hnr : NUL ∉ r := fun e => hin (by rw [← hlr]; simp [e])
      have hstrlen : strlen (l ++ [NUL]) = l.length := by
        unfold strlen; rw [cstr_terminated hnl]
      obtain ⟨hre, halloc2⟩ := realloc_succeeds (w := { w with stdin := r }) (acc ++ [NUL])
        (acc.length + 1 + strlen (l ++ [NUL])) halloc
      simp only [hf, hre]
      have htake : (acc ++ [NUL]).take (acc.length + 1 + strlen (l ++ [NUL])) = acc ++ [NUL] := by
        apply List.take_of_length_le
        simp
      have hcat : strcat (acc ++ [NUL]) (l ++ [NUL]) = (acc ++ l) ++ [NUL] := by
        unfold strcat
        rw [cstr_terminated hacc, cstr_terminated hnl]
      have hsize : acc.length + 1 + strlen (l ++ [NUL]) = (acc ++ l).length + 1 := by
        rw [hstrlen]; simp; omega
      rw [htake, hcat, hsize]
      have hlen2 : r.length < fuel := by
        have h1 : l.length + r.length = w.stdin.length := by
          rw [← hlr]; simp
        have h2 : 0 < l.length := List.length_pos.mpr hl
        omega
      have hacc2 : NUL ∉ acc ++ l := by
        simp [hacc, hnl]
      obtain ⟨k, hk⟩ := ih (acc ++ l)
        { w with stdin := r, allocFaults := w.allocFaults.tail } hlen2 hacc2 hnr hclean halloc2
      refine ⟨k + 1, ?_⟩
      rw [hk, ← hlr]
      simp

theorem output_calls (error_status : Int)
    (error_message output_string outfile : Option (List Char)) (w : World) :
    (output error_status error_message output_string outfile w).2.calls =
      w.calls ++ outputCalls error_status error_message output_string outfile w ∧
    engineInputs (outputCalls error_status error_message output_string outfile w) = [] := by
  by_cases he : error_status = 0
  · subst he
    cases output_string with
    | none => simp [output, outputCalls, engineInputs, fprintf_stderr]
    | some s =>
      cases outfile with
      | none => simp [output, outputCalls, engineInputs, printf]
      | some f =>
        rcases Nat.lt_or_ge w.bufsiz s.length with hb | hb
        · have hb2 : ¬ s.length ≤ w.bufsiz := Nat.not_le.mpr hb
          rcases hf : w.fopenFaults with _ | ⟨_ | _, rest⟩ <;>
            by_cases hs : s = [] <;>
              rcases hw : w.writeFaults with _ | ⟨_ | k, rest2⟩ <;>
                simp [output, outputCalls, engineInputs, fopen, fprintf, os_write, fclose,
                  perror, fprintf_stderr, hf, hw, hb, hb2, hs, length_not_neg]
        · have hb2 : ¬ w.bufsiz < s.length := Nat.not_lt.mpr hb
          rcases hf : w.fopenFaults with _ | ⟨_ | _, rest⟩ <;>
            by_cases hs : s = [] <;>
              rcases hw : w.writeFaults with _ | ⟨_ | k, rest2⟩ <;>
                simp [output, outputCalls, engineInputs, fopen, fprintf, os_write, fclose,
                  perror, fprintf_stderr, hf, hw, hb, hb2, hs, length_not_neg]
  · cases error_message <;> simp [output, outputCalls, engineInputs, fprintf_stderr, he]

theorem malloc_succeeds {w : World} (h : allocsSucceed w = true) :
    malloc w = (true, { w with allocFaults := w.allocFaults.tail }) ∧
    allocsSucceed { w with allocFaults := w.allocFaults.tail } = true := by
  unfold allocsSucceed at *
  unfold malloc
  rcases hw : w.allocFaults with _ | ⟨_ | _, rest⟩
  · simp
  · rw [hw] at h
    simp only [List.all_cons, Bool.and_eq_true] at h
    simp [h.2]
  · rw [hw] at h
    simp at h

/-- C5, as stated, fails: when standard input delivers `a`, a zero byte, `b` and a newline,
the string handed to the engine is `a`, not the input. -/
theorem compile_stdin_truncates_at_zero_byte :
    handedToEngine (compile_stdin echo_engine sass_options.zero none World.binaryInput) =
      some [['a']] ∧
    ['a'] ≠ World.binaryInput.stdin := by
  refine ⟨?_, ?_⟩ <;> decide

theorem compile_stdin_done (engine : World → sass_context → sass_context)
    (options : sass_options) (outfile : Option (List Char)) (w w1 w2 : World)
    (mem : List Char) (h1 : malloc w = (true, w1))
    (h2 : stdin_loop (w1.stdin.length + 1) 1 [NUL] w1 = some (Accumulated.done mem w2))
    (h3 : w2.stdinError = false) :
    ∃ code wf, compile_stdin engine options outfile w = some (Outcome.returned code wf) ∧
      wf.calls = w2.calls ++ Call.sass_compile (cstr mem) :: wf.calls.drop (w2.calls.length + 1) ∧
      engineInputs (wf.calls.drop (w2.calls.length + 1)) = [] := by
  unfold compile_stdin
  simp only [h1, h2, h3]
  refine ⟨_, _, rfl, ?_⟩
  obtain ⟨hc, he⟩ := output_calls
    (sass_compile engine
      { sass_new_context with options := options, source_string := some (cstr mem) }
      w2).1.error_status
    (sass_compile engine
      { sass_new_context with options := options, source_string := some (cstr mem) }
      w2).1.error_message
    (sass_compile engine
      { sass_new_context with options := options, source_string := some (cstr mem) }
      w2).1.output_string
    outfile
    (sass_compile engine
      { sass_new_context with options := options, source_string := some (cstr mem) }
      w2).2
  rw [hc]
  simp only [sass_compile, Option.getD_some, List.append_assoc, List.singleton_append]
  have hd : ∀ (a : List Call) (x : Call) (b : List Call),
      (a ++ x :: b).drop (a.length + 1) = b := by
    intro a x b
    induction a with
    | nil => simp
    | cons y a ih => simp [ih]
  rw [hd]
  exact ⟨rfl, he⟩

/-- C5, amended. For every input without a zero byte, of any length, delivered in full and
followed by a clean end-of-stream (allocations succeeding), `compile_stdin` returns and the
engine has been called exactly once, on a source string equal to the input. -/
theorem compile_stdin_accumulates (engine : World → sass_context → sass_context)
    (options : sass_options) (outfile : Option (List Char)) (w : World)
    (hzero : NUL ∉ w.stdin) (hclean : w.stdinFails = false) (herr : w.stdinError = false)
    (halloc : allocsSucceed w = true) :
    ∃ code wf, compile_stdin engine options outfile w = some (Outcome.returned code wf) ∧
      engineInputs (wf.calls.drop w.calls.length) = [w.stdin] := by
  obtain ⟨hm, halloc1⟩ := malloc_succeeds halloc
  obtain ⟨k, hk⟩ := stdin_loop_clean (w.stdin.length + 1) []
    { w with allocFaults := w.allocFaults.tail } (Nat.lt_succ_self _) (by simp) hzero hclean
    halloc1
  obtain ⟨code, wf, h1, h2, h3⟩ := compile_stdin_done engine options outfile w _ _ _ hm hk herr
  refine ⟨code, wf, h1, ?_⟩
  rw [h2]
  simp only [List.drop_left, engineInputs, List.filterMap_cons]
  rw [cstr_terminated (l := [] ++ w.stdin) (by simp [hzero]) []]
  exact congrArg _ h3

/-- Witness for C5 amended: three lines of text, the last one without a newline. -/
theorem compile_stdin_accumulates_witness :
    NUL ∉ World.textInput.stdin ∧ World.textInput.stdinFails = false ∧
    World.textInput.stdinError = false ∧ allocsSucceed World.textInput = true ∧
    ∃ code wf,
      compile_stdin echo_engine sass_options.zero none World.textInput =
        some (Outcome.returned code wf) ∧
      engineInputs (wf.calls.drop World.textInput.calls.length) = [World.textInput.stdin] :=
  ⟨by decide, by decide, by decide, by decide,
    compile_stdin_accumulates echo_engine sass_options.zero none World.textInput
      (by decide) (by decide) (by decide) (by decide)⟩

theorem getline_nil_hits_end (n : Nat) (cs : List Char)
    (h : (getline (n + 1) cs).1 = []) : (getline (n + 1) cs).2.2 = true := by
  cases cs with
  | nil => simp [getline]
  | cons c cs => exact absurd h (getline_ne_nil n c cs)

theorem fgets_progress (w : World) :
    (∃ w1, fgets BUFSIZE w = (none, w1) ∧ w1.calls = w.calls) ∨
    (∃ buffer w1, fgets BUFSIZE w = (some buffer, w1) ∧ w1.calls = w.calls ∧
      w1.stdin.length < w.stdin.length) := by
  have happ : (getline (512 - 1) w.stdin).1 ++ (getline (512 - 1) w.stdin).2.1 = w.stdin :=
    getline_append _ _
  have hnil : (getline (512 - 1) w.stdin).1 = [] → (getline (512 - 1) w.stdin).2.2 = true :=
    getline_nil_hits_end 510 w.stdin
  unfold fgets
  simp only [BUFSIZE]
  generalize getline (512 - 1) w.stdin = g at happ hnil
  obtain ⟨l, r, e⟩ := g
  simp only at happ hnil
  cases h1 : (e && w.stdinFails)
  · cases h2 : (e && l.isEmpty)
    · right
      refine ⟨l ++ [NUL], { w with stdin := r }, by simp, rfl, ?_⟩
      have hne : l ≠ [] := by
        intro he
        simp [hnil he, he] at h2
      have hlen := congrArg List.length happ
      rw [List.length_append] at hlen
      have hpos := List.length_pos.mpr hne
      show r.length < w.stdin.length
      omega
    · left
      exact ⟨{ w with stdin := r }, by simp, rfl⟩
  · left
    exact ⟨{ w with stdin := r, stdinError := true }, by simp, rfl⟩

theorem realloc_cases (mem : List Char) (size : Nat) (w : World) :
    (∃ w1, realloc mem size w = (none, w1) ∧ w1.calls = w.calls ∧ w1.stdin = w.stdin) ∨
    (∃ mem1 w1, realloc mem size w = (some mem1, w1) ∧ w1.calls = w.calls ∧
      w1.stdin = w.stdin) := by
  unfold realloc
  rcases w.allocFaults with _ | ⟨_ | _, rest⟩
  · right; exact ⟨mem.take size, { w with allocFaults := ([] : List Bool).tail }, rfl, rfl, rfl⟩
  · right; exact ⟨mem.take size, { w with allocFaults := (false :: rest).tail }, rfl, rfl, rfl⟩
  · left; exact ⟨{ w with allocFaults := rest }, rfl, rfl, rfl⟩

theorem stdin_loop_outcome :
    ∀ (fuel size : Nat) (mem : List Char) (w : World), w.stdin.length < fuel →
      (∃ mem1 w1, stdin_loop fuel size mem w = some (Accumulated.done mem1 w1) ∧
        w1.calls = w.calls) ∨
      (∃ w1, stdin_loop fuel size mem w = some (Accumulated.fatal 2 w1) ∧
        w1.calls = w.calls ++ [Call.write Sink.stderr]) := by
  intro fuel
  induction fuel with
  | zero => intro size mem w h; omega
  | succ fuel ih =>
    intro size mem w hlen
    unfold stdin_loop
    rcases fgets_progress w with ⟨w1, hf, hc⟩ | ⟨buffer, w1, hf, hc, hl⟩
    · left; exact ⟨mem, w1, by simp only [hf], hc⟩
    · rcases realloc_cases mem (size + strlen buffer) w1 with
        ⟨w2, hr, hc2, _⟩ | ⟨mem1, w2, hr, hc2, hs2⟩
      · right
        refine ⟨perror "Reallocation failed".toList w2, by simp only [hf, hr], ?_⟩
        simp [perror, fprintf_stderr, hc2, hc]
      · simp only [hf, hr]
        have hlen2 : w2.stdin.length < fuel := by rw [hs2]; omega
        rcases ih (size + strlen buffer) (strcat mem1 buffer) w2 hlen2 with
          ⟨m, w3, h3, hc3⟩ | ⟨w3, h3, hc3⟩
        · left; exact ⟨m, w3, h3, by rw [hc3, hc2, hc]⟩
        · right; exact ⟨w3, h3, by rw [hc3, hc2, hc]⟩

theorem malloc_cases (w : World) :
    (w.allocFaults.head? = some true ∧
      malloc w = (false, { w with allocFaults := w.allocFaults.tail })) ∨
    (w.allocFaults.head? ≠ some true ∧
      malloc w = (true, { w with allocFaults := w.allocFaults.tail })) := by
  unfold malloc
  rcases hw : w.allocFaults with _ | ⟨_ | _, rest⟩
  · right; simp
  · right; simp
  · left; simp

/-- Every way `compile_stdin` can end: it always ends; when it terminates the process the
status is 1 exactly when the initial allocation failed and 2 otherwise, and its only call is
the report of `perror`, so neither the engine nor the dispatcher has run. -/
theorem compile_stdin_fatal_exits (engine : World → sass_context → sass_context)
    (options : sass_options) (outfile : Option (List Char)) (w : World) :
    (∃ code wf, compile_stdin engine options outfile w = some (Outcome.returned code wf)) ∨
    (∃ wf, compile_stdin engine options outfile w =
        some (Outcome.exited (if w.allocFaults.head? = some true then 1 else 2) wf) ∧
      wf.calls = w.calls ++ [Call.write Sink.stderr]) := by
  unfold compile_stdin
  rcases malloc_cases w with ⟨hh, hm⟩ | ⟨hh, hm⟩
  · right
    refine ⟨perror "Allocation failed".toList { w with allocFaults := w.allocFaults.tail },
      by simp only [hm, hh, if_true], ?_⟩
    simp [perror, fprintf_stderr]
  · simp only [hm, hh, if_false]
    rcases stdin_loop_outcome (w.stdin.length + 1) 1 [NUL]
        { w with allocFaults := w.allocFaults.tail } (Nat.lt_succ_self _) with
      ⟨m, w2, h2, hc2⟩ | ⟨w2, h2, hc2⟩
    · simp only [h2]
      cases he : w2.stdinError
      · left
        simp only [Bool.false_eq_true, if_false]
        exact ⟨_, _, rfl⟩
      · right
        refine ⟨perror "Error reading standard input".toList w2, by simp, ?_⟩
        simp [perror, fprintf_stderr, hc2]
    · right
      simp only [h2]
      exact ⟨w2, rfl, hc2⟩

/-- C8 (defect of the code). When the initial allocation fails, `compile_stdin` terminates
the process with status 1, not 2, after the report of `perror`; the engine and the
dispatcher are not invoked. -/
theorem compile_stdin_initial_allocation_failure
    (engine : World → sass_context → sass_context) (options : sass_options)
    (outfile : Option (List Char)) (w : World) (rest : List Bool) :
    compile_stdin engine options outfile { w with allocFaults := true :: rest } =
      some (Outcome.exited 1
        (perror "Allocation failed".toList { w with allocFaults := rest })) ∧
    (perror "Allocation failed".toList { w with allocFaults := rest }).calls =
      w.calls ++ [Call.write Sink.stderr] := by
  simp [compile_stdin, malloc, perror, fprintf_stderr]

/-! ## Properties of `compile_file` -/

end Sassc
